import Mathlib

/-!
Shallow embedding of the `evc` crate: a double-buffered, epoch-coordinated
single-writer / multi-reader synchronization primitive.

The embedding models the sequential (single-interleaving) semantics of the
library: the writer state holds the two heap buffers (addressed by `Fin 2`,
since exactly two buffers are ever allocated, at distinct addresses), the two
atomic pointer cells (`readers_ptr` is the public cell, `writers_ptr` the
private cell), the pending operation log `ops`, the epoch registry (a list of
weak references: `some e` is a live reader whose counter currently holds `e`,
`none` a dropped reader), and the writer's `last_epochs` snapshot vector.

User types enter through a function `ap : α → β → α`, the pure counterpart of
`OperationCache::apply_operation` (being a function, it is deterministic).
-/

namespace Evc

/-- Width of `usize` in bytes on the modelled (64-bit) target,
`mem::size_of::<usize>()` in `src/lib.rs`. -/
def usizeBytes : Nat := 8

/-- The constant `USIZE_MSB = 1 << (mem::size_of::<usize>() * 8 - 1)` from
`src/lib.rs` line 98. -/
def USIZE_MSB : Nat := 1 <<< (usizeBytes * 8 - 1)

/-- One beyond the largest `usize` value; `usize` arithmetic wraps modulo this. -/
def usizeWrap : Nat := 2 ^ (usizeBytes * 8)

theorem USIZE_MSB_eq : USIZE_MSB = 2 ^ 63 := by
  simp [USIZE_MSB, usizeBytes, Nat.one_shiftLeft]

theorem usizeWrap_eq : usizeWrap = 2 ^ 64 := by
  simp [usizeWrap, usizeBytes]

/-- An event the writer thread performs: `WriteHandle::write(op)` or
`WriteHandle::refresh()`. -/
inductive Event (β : Type) where
  | write (op : β)
  | refresh
deriving DecidableEq

/-- The state of one `evc` instance, as seen through the writer handle:
the two buffers (`buf` maps each of the two heap addresses to the value
stored there), the private pointer cell `writers_ptr`, the public pointer
cell `readers_ptr` (fields `writers_inner` / `readers_inner` in
`src/write.rs`), the pending log `ops`, the shared epoch registry `epochs`
(entry `some e`: live reader whose atomic counter holds `e`; `none`: the
weak reference is dangling because the reader dropped) and the writer's
`last_epochs` vector. -/
structure WState (α : Type) (β : Type) where
  buf : Fin 2 → α
  writers_ptr : Fin 2
  readers_ptr : Fin 2
  ops : List β
  epochs : List (Option Nat)
  last_epochs : List Nat

variable {α : Type} {β : Type}

/-- The pair of fresh handles built by `evc::new(value)` (`src/lib.rs` lines
103-114): two distinct heap buffers both holding (a clone of) `value`, the
public cell pointing at one and the private cell at the other, an empty log,
a registry holding the single fresh reader's counter (initialised to 0), and
an empty `last_epochs`. -/
def evcNew (v : α) : WState α β :=
  { buf := fun _ => v
    writers_ptr := 1
    readers_ptr := 0
    ops := []
    epochs := [some 0]
    last_epochs := [] }

/-- `WriteHandle::write` (`src/write.rs` lines 33-35): push the operation
onto the writer-private log. -/
def writeOp (st : WState α β) (op : β) : WState α β :=
  { st with ops := st.ops ++ [op] }

/-- `Vec::resize(n, 0)` as used on `last_epochs` in `WriteHandle::wait`
(`src/write.rs` line 40): truncate to `n` elements or extend with zeros. -/
def resizeZeros (l : List Nat) (n : Nat) : List Nat :=
  l.take n ++ List.replicate (n - l.length) 0

/-- The net effect on the registry of the garbage-collection part of
`WriteHandle::wait` (`src/write.rs` lines 43-55): every dangling weak
reference is removed, from the registry and from `last_epochs` at the same
index, preserving order. -/
def gcPairs (pairs : List (Option Nat × Nat)) : List (Option Nat × Nat) :=
  pairs.filter (fun p => p.1.isSome)

/-- `WriteHandle::wait` (`src/write.rs` lines 36-77) in the sequential
semantics: resize `last_epochs` to the registry's length, drop dead readers
from both lists.  (The spin on a blocking reader has no state effect and, in
a sequential interleaving, every reader is outside its guard, hence never
blocking, so the loop terminates.) -/
def wait (st : WState α β) : WState α β :=
  let pairs := gcPairs (st.epochs.zip (resizeZeros st.last_epochs st.epochs.length))
  { st with epochs := pairs.map Prod.fst, last_epochs := pairs.map Prod.snd }

/-- The epoch snapshot of `WriteHandle::refresh` (`src/write.rs` lines
98-102): for every still-live reader `i`, store its current counter into
`last_epochs[i]`; a dead entry keeps the old snapshot value. -/
def snapshotEpochs (epochs : List (Option Nat)) (last : List Nat) : List Nat :=
  List.zipWith (fun e l => match e with | some v => v | none => l) epochs last

variable (ap : α → β → α)

/-- `WriteHandle::refresh` (`src/write.rs` lines 79-111): wait (GC), apply
the log to the private buffer, swap the two pointer cells, snapshot every
live reader's epoch counter into `last_epochs`, then drain the log applying
it once more to the new private buffer (the old public one). -/
def refresh (st : WState α β) : WState α β :=
  let st1 := wait st
  let buf1 := Function.update st1.buf st1.writers_ptr
      (List.foldl ap (st1.buf st1.writers_ptr) st1.ops)
  let newW := st1.readers_ptr
  let newR := st1.writers_ptr
  let buf2 := Function.update buf1 newW (List.foldl ap (buf1 newW) st1.ops)
  { buf := buf2
    writers_ptr := newW
    readers_ptr := newR
    ops := []
    epochs := st1.epochs
    last_epochs := snapshotEpochs st1.epochs st1.last_epochs }

/-- One writer-side event. -/
def stepEv (st : WState α β) : Event β → WState α β
  | .write op => writeOp st op
  | .refresh => refresh ap st

/-- Run a sequence of writer-side events. -/
def exec (st : WState α β) : List (Event β) → WState α β
  | [] => st
  | e :: t => exec (stepEv ap st e) t

/-- The value a `ReadHandle::read` guard dereferences to (`src/read.rs`
lines 39-52 and 122-127): the value of the buffer the public cell points
at. -/
def readValue (st : WState α β) : α := st.buf st.readers_ptr

/-- `WriteHandle::into_inner` (`src/write.rs` lines 113-116): take the
private buffer's value; the pending log is simply dropped. -/
def writerIntoInner (st : WState α β) : α := st.buf st.writers_ptr

/-- `impl Drop for WriteHandle` (`src/write.rs` lines 119-134), restricted
to what readers can observe: run a final `refresh` exactly when the log is
non-empty.  (Nulling the private cell and freeing the private buffer is not
observable through the public cell.) -/
def dropWriter (st : WState α β) : WState α β :=
  if st.ops.isEmpty then st else refresh ap st

/-- Number of `refresh` events in a trace. -/
def refreshCount : List (Event β) → Nat
  | [] => 0
  | .write _ :: t => refreshCount t
  | .refresh :: t => refreshCount t + 1

/-- All operations the writer ever wrote, in order. -/
def allWrites : List (Event β) → List β
  | [] => []
  | .write op :: t => op :: allWrites t
  | .refresh :: t => allWrites t

/-- The operations written strictly before the `n`-th refresh of the trace,
in the order supplied. -/
def writesBeforeNthRefresh (n : Nat) : List (Event β) → List β
  | [] => []
  | .write op :: t => if n = 0 then [] else op :: writesBeforeNthRefresh n t
  | .refresh :: t => if n ≤ 1 then [] else writesBeforeNthRefresh (n - 1) t

/-- Given pending log `p` at the start, the operations that some `refresh`
of the trace flushes into the buffers. -/
def flushedFrom (p : List β) : List (Event β) → List β
  | [] => []
  | .write op :: t => flushedFrom (p ++ [op]) t
  | .refresh :: t => p ++ flushedFrom [] t

/-- Given pending log `p` at the start, the log still pending at the end of
the trace. -/
def pendingFrom (p : List β) : List (Event β) → List β
  | [] => p
  | .write op :: t => pendingFrom (p ++ [op]) t
  | .refresh :: t => pendingFrom [] t

/-- The blocking classification of the wait phase of `WriteHandle::wait`
(`src/write.rs` lines 57-73), for one registered reader: `last` is the
writer's snapshot `last_epochs[index]`, `current` the value just loaded from
the reader's atomic counter.  If the snapshot has the high bit set the loop
`continue`s (the reader was idle at the last swap); otherwise the reader
blocks exactly when the loaded counter equals the snapshot, has the high bit
clear, and is non-zero. -/
def readerBlocks (last current : Nat) : Bool :=
  if last &&& USIZE_MSB ≠ 0 then false
  else if current = last ∧ current &&& USIZE_MSB = 0 ∧ current ≠ 0 then true
  else false

/-- The shared state `ReadHandle::into_inner` touches (`src/read.rs` lines
69-80): the strong reference count of the `Arc` around the public pointer
cell (counting this handle, every other `ReadHandle`, every
`ReadHandleFactory`, and the writer's `readers_inner` clone), and the cell's
content (`some v`: points at a buffer holding `v`; `none`: null). -/
structure ReadShared (α : Type) where
  strong_count : Nat
  cell : Option α
deriving DecidableEq

/-- `ReadHandle::into_inner` (`src/read.rs` lines 69-80): `present` is
whether `self.inner` is still `Some` (it always is on a live handle).  If
this handle holds the last strong reference, swap null into the cell and
take the boxed value; otherwise return nothing and leave the shared state
untouched.  Returns the result together with the resulting shared state. -/
def rhIntoInner (present : Bool) (sh : ReadShared α) : Option α × ReadShared α :=
  if present then
    if sh.strong_count = 1 then (sh.cell, { sh with cell := none })
    else (none, sh)
  else (none, sh)

/-- The per-handle epoch state of a `ReadHandle` (`src/read.rs` lines
13-21): the non-atomic-in-spirit `local_epoch` and the shared
`global_epoch` counter the writer inspects. -/
structure ReaderEpoch where
  local_epoch : Nat
  global_epoch : Nat
deriving DecidableEq

/-- A freshly constructed reader (`ReadHandle::new`, `src/read.rs` lines
23-36): both counters start at 0. -/
def initialReader : ReaderEpoch :=
  { local_epoch := 0, global_epoch := 0 }

/-- `ReadHandle::read` (`src/read.rs` lines 39-52), the epoch part:
`local_epoch.fetch_add(1) + 1` (wrapping `usize` arithmetic) gives the
guard's epoch `e`, which is stored into the shared counter.  Returns the
new reader state and the guard's epoch. -/
def doRead (r : ReaderEpoch) : ReaderEpoch × Nat :=
  let e := (r.local_epoch + 1) % usizeWrap
  ({ local_epoch := e, global_epoch := e }, e)

/-- `impl Drop for ReadHandleGuard` (`src/read.rs` lines 128-132): store
`e | USIZE_MSB` into the shared counter. -/
def dropGuard (r : ReaderEpoch) (e : Nat) : ReaderEpoch :=
  { r with global_epoch := e ||| USIZE_MSB }

/-- One `read` immediately followed by dropping the returned guard. -/
def readDropPair (r : ReaderEpoch) : ReaderEpoch :=
  let rd := doRead r
  dropGuard rd.1 rd.2

/-- The reader state after `n` read/drop pairs starting from a fresh
handle's state. -/
def readerAfterPairs : Nat → ReaderEpoch
  | 0 => initialReader
  | n + 1 => readDropPair (readerAfterPairs n)

/-- A small concrete writer state used to evaluate the model on explicit
inputs: both buffers hold `7`, the log is empty, the registry holds two
live readers (counters `5` and `12`) and one dangling entry, and the
snapshot vector has a single entry. -/
def sampleState : WState Nat Nat :=
  { buf := fun _ => 7
    writers_ptr := 1
    readers_ptr := 0
    ops := []
    epochs := [some 5, none, some 12]
    last_epochs := [5] }

@[simp] lemma wait_buf (st : WState α β) : (wait st).buf = st.buf := rfl

@[simp] lemma wait_writers_ptr (st : WState α β) : (wait st).writers_ptr = st.writers_ptr := rfl

@[simp] lemma wait_readers_ptr (st : WState α β) : (wait st).readers_ptr = st.readers_ptr := rfl

@[simp] lemma wait_ops (st : WState α β) : (wait st).ops = st.ops := rfl

@[simp] lemma refresh_ops (st : WState α β) : (refresh ap st).ops = [] := rfl

@[simp] lemma refresh_readers_ptr (st : WState α β) :
    (refresh ap st).readers_ptr = st.writers_ptr := rfl

@[simp] lemma refresh_writers_ptr (st : WState α β) :
    (refresh ap st).writers_ptr = st.readers_ptr := rfl

lemma refresh_buf (st : WState α β) :
    (refresh ap st).buf =
      Function.update
        (Function.update st.buf st.writers_ptr
          (List.foldl ap (st.buf st.writers_ptr) st.ops))
        st.readers_ptr
        (List.foldl ap
          (Function.update st.buf st.writers_ptr
            (List.foldl ap (st.buf st.writers_ptr) st.ops) st.readers_ptr)
          st.ops) := rfl

/-- After a refresh the public buffer holds the old private value with the
log applied once. -/
lemma refresh_readValue (st : WState α β) (h : st.readers_ptr ≠ st.writers_ptr) :
    (refresh ap st).buf (refresh ap st).readers_ptr =
      List.foldl ap (st.buf st.writers_ptr) st.ops := by
  rw [refresh_readers_ptr, refresh_buf,
    Function.update_noteq (Ne.symm h), Function.update_same]

/-- After a refresh the new private buffer holds the old public value with
the log applied once. -/
lemma refresh_writerValue (st : WState α β) (h : st.readers_ptr ≠ st.writers_ptr) :
    (refresh ap st).buf (refresh ap st).writers_ptr =
      List.foldl ap (st.buf st.readers_ptr) st.ops := by
  rw [refresh_writers_ptr, refresh_buf, Function.update_same,
    Function.update_noteq h]

@[simp] lemma exec_nil (st : WState α β) : exec ap st [] = st := rfl

lemma exec_cons (st : WState α β) (e : Event β) (t : List (Event β)) :
    exec ap st (e :: t) = exec ap (stepEv ap st e) t := rfl

lemma exec_append (t t' : List (Event β)) :
    ∀ st : WState α β, exec ap st (t ++ t') = exec ap (exec ap st t) t' := by
  induction t with
  | nil => intro st; rfl
  | cons e t ih => intro st; simpa [exec_cons] using ih (stepEv ap st e)

/-- The central invariant of the sequential execution: starting from a state
whose two buffers both hold `a` and whose pointers are distinct, after any
trace the public and private buffers both hold `a` with the flushed
operations applied in order, the log holds exactly the pending operations,
and the pointers stay distinct. -/
lemma exec_inv (t : List (Event β)) :
    ∀ (st : WState α β) (a : α),
      st.buf st.readers_ptr = a → st.buf st.writers_ptr = a →
      st.readers_ptr ≠ st.writers_ptr →
      (exec ap st t).buf (exec ap st t).readers_ptr
          = List.foldl ap a (flushedFrom st.ops t) ∧
      (exec ap st t).buf (exec ap st t).writers_ptr
          = List.foldl ap a (flushedFrom st.ops t) ∧
      (exec ap st t).ops = pendingFrom st.ops t ∧
      (exec ap st t).readers_ptr ≠ (exec ap st t).writers_ptr := by
  induction t with
  | nil =>
    intro st a hr hw hne
    simp [flushedFrom, pendingFrom, hr, hw, hne]
  | cons e t ih =>
    intro st a hr hw hne
    cases e with
    | write op =>
      have h := ih (writeOp st op) a hr hw hne
      simpa [exec_cons, stepEv, writeOp, flushedFrom, pendingFrom] using h
    | refresh =>
      have hr' : (refresh ap st).buf (refresh ap st).readers_ptr
          = List.foldl ap a st.ops := by
        rw [refresh_readValue ap st hne, hw]
      have hw' : (refresh ap st).buf (refresh ap st).writers_ptr
          = List.foldl ap a st.ops := by
        rw [refresh_writerValue ap st hne, hr]
      have hne' : (refresh ap st).readers_ptr ≠ (refresh ap st).writers_ptr := by
        simpa using Ne.symm hne
      have h := ih (refresh ap st) (List.foldl ap a st.ops) hr' hw' hne'
      simpa [exec_cons, stepEv, flushedFrom, pendingFrom, List.foldl_append] using h

lemma flushedFrom_closed (t : List (Event β)) :
    ∀ p : List β,
      flushedFrom p t = if refreshCount t = 0 then [] else p ++ flushedFrom [] t := by
  induction t with
  | nil => intro p; simp [flushedFrom, refreshCount]
  | cons e t ih =>
    intro p
    cases e with
    | write op =>
      by_cases h : refreshCount t = 0 <;>
        simp [flushedFrom, refreshCount, ih (p ++ [op]), ih [op], h]
    | refresh =>
      simp [flushedFrom, refreshCount]

/-- The operations written before the `n`-th refresh, for `n` the total
number of refreshes in the trace, are exactly the flushed operations. -/
lemma writesBeforeNthRefresh_eq_flushed (t : List (Event β)) :
    writesBeforeNthRefresh (refreshCount t) t = flushedFrom [] t := by
  induction t with
  | nil => rfl
  | cons e t ih =>
    cases e with
    | write op =>
      by_cases h : refreshCount t = 0
      · simp [writesBeforeNthRefresh, refreshCount, h, flushedFrom,
          flushedFrom_closed t [op]]
      · simp [writesBeforeNthRefresh, refreshCount, h, flushedFrom,
          flushedFrom_closed t [op], ih]
    | refresh =>
      by_cases h : refreshCount t = 0
      · simp [writesBeforeNthRefresh, refreshCount, h, flushedFrom,
          flushedFrom_closed t ([] : List β)]
      · have h1 : ¬ refreshCount t + 1 ≤ 1 := by omega
        simp [writesBeforeNthRefresh, refreshCount, h1, flushedFrom, ih]

/-- Flushed and still-pending operations together are the initial log
followed by every operation written in the trace, in order. -/
lemma flushed_append_pending (t : List (Event β)) :
    ∀ p : List β, flushedFrom p t ++ pendingFrom p t = p ++ allWrites t := by
  induction t with
  | nil => intro p; simp [flushedFrom, pendingFrom, allWrites]
  | cons e t ih =>
    intro p
    cases e with
    | write op =>
      simpa [flushedFrom, pendingFrom, allWrites] using ih (p ++ [op])
    | refresh =>
      simp [flushedFrom, pendingFrom, allWrites, List.append_assoc, ih []]

/-- A trace without refresh events changes neither buffer contents nor the
pointer cells. -/
lemma exec_noRefresh (t : List (Event β)) :
    ∀ st : WState α β, refreshCount t = 0 →
      (exec ap st t).buf = st.buf ∧
      (exec ap st t).readers_ptr = st.readers_ptr ∧
      (exec ap st t).writers_ptr = st.writers_ptr := by
  induction t with
  | nil => intro st _; exact ⟨rfl, rfl, rfl⟩
  | cons e t ih =>
    intro st h
    cases e with
    | write op => simpa [exec_cons, stepEv, writeOp] using ih (writeOp st op) h
    | refresh => simp [refreshCount] at h

/-- The two pointer cells stay distinct along any trace. -/
lemma exec_ptrs_ne (t : List (Event β)) :
    ∀ st : WState α β, st.readers_ptr ≠ st.writers_ptr →
      (exec ap st t).readers_ptr ≠ (exec ap st t).writers_ptr := by
  induction t with
  | nil => intro st h; exact h
  | cons e t ih =>
    intro st h
    cases e with
    | write op => exact ih (writeOp st op) h
    | refresh =>
      exact ih (refresh ap st) (by simpa using Ne.symm h)

@[simp] lemma evcNew_readers_ptr (v : α) : (evcNew (β := β) v).readers_ptr = 0 := rfl

@[simp] lemma evcNew_writers_ptr (v : α) : (evcNew (β := β) v).writers_ptr = 1 := rfl

@[simp] lemma evcNew_ops (v : α) : (evcNew (β := β) v).ops = [] := rfl

@[simp] lemma evcNew_buf (v : α) (i : Fin 2) : (evcNew (β := β) v).buf i = v := rfl

lemma evcNew_ptr_ne (v : α) :
    (evcNew (β := β) v).readers_ptr ≠ (evcNew (β := β) v).writers_ptr := by
  simp [evcNew]

/-- `exec_inv` specialised to a freshly constructed instance. -/
lemma exec_evcNew_inv (v : α) (t : List (Event β)) :
    (exec ap (evcNew v) t).buf (exec ap (evcNew v) t).readers_ptr
        = List.foldl ap v (flushedFrom [] t) ∧
    (exec ap (evcNew v) t).buf (exec ap (evcNew v) t).writers_ptr
        = List.foldl ap v (flushedFrom [] t) ∧
    (exec ap (evcNew v) t).ops = pendingFrom [] t ∧
    (exec ap (evcNew v) t).readers_ptr ≠ (exec ap (evcNew v) t).writers_ptr := by
  simpa using exec_inv ap t (evcNew v) v rfl rfl (evcNew_ptr_ne v)

lemma wait_last_epochs_length (st : WState α β) :
    (wait st).last_epochs.length = (wait st).epochs.length := by
  simp [wait]

lemma snapshotEpochs_get :
    ∀ (es : List (Option Nat)) (ls : List Nat) (i : Nat) (e : Nat),
      es.length = ls.length → es[i]? = some (some e) →
      (snapshotEpochs es ls)[i]? = some e := by
  intro es
  induction es with
  | nil => intro ls i e _ h; simp at h
  | cons a es ih =>
    intro ls i e hlen h
    cases ls with
    | nil => simp at hlen
    | cons l ls =>
      cases i with
      | zero =>
        simp only [List.getElem?_cons_zero, Option.some.injEq] at h
        simp [snapshotEpochs, h]
      | succ i =>
        simp only [List.getElem?_cons_succ] at h
        simp only [List.length_cons, Nat.succ.injEq] at hlen
        simpa [snapshotEpochs] using ih ls i e hlen h

/-- C1: for every initial value `v` and every sequence of `write` events
interleaved with `refresh` events, a read performed strictly after the
`n`-th refresh (the trace contains exactly `n` refreshes) returns the value
obtained by applying, in the order supplied, all operations written before
the `n`-th refresh to `v`. -/
theorem claim1_read_after_nth_refresh (v : α) (t : List (Event β)) (n : Nat)
    (h : refreshCount t = n) :
    readValue (exec ap (evcNew v) t)
      = List.foldl ap v (writesBeforeNthRefresh n t) := by
  have h1 := (exec_evcNew_inv ap v t).1
  rw [readValue, h1, ← h, writesBeforeNthRefresh_eq_flushed]

theorem claim1_witness :
    refreshCount [Event.write 57, Event.write 94, Event.refresh, Event.write 42] = 1 ∧
    readValue (exec (fun (l : List Nat) (x : Nat) => l ++ [x]) (evcNew [])
        [Event.write 57, Event.write 94, Event.refresh, Event.write 42])
      = List.foldl (fun (l : List Nat) (x : Nat) => l ++ [x]) []
          (writesBeforeNthRefresh 1
            [Event.write 57, Event.write 94, Event.refresh, Event.write 42]) :=
  ⟨rfl, claim1_read_after_nth_refresh _ _ _ 1 rfl⟩

/-- C2: after every completed `refresh` the public and the private buffer
hold equal values (the user's apply function, being a Lean function, is
deterministic), and the operation log is empty. -/
theorem claim2_buffers_converge (v : α) (t : List (Event β)) :
    (exec ap (evcNew v) (t ++ [Event.refresh])).buf
        (exec ap (evcNew v) (t ++ [Event.refresh])).readers_ptr
      = (exec ap (evcNew v) (t ++ [Event.refresh])).buf
        (exec ap (evcNew v) (t ++ [Event.refresh])).writers_ptr ∧
    (exec ap (evcNew v) (t ++ [Event.refresh])).ops = [] := by
  obtain ⟨h1, h2, _, _⟩ := exec_evcNew_inv ap v (t ++ [Event.refresh])
  refine ⟨h1.trans h2.symm, ?_⟩
  rw [exec_append]
  rfl

/-- C4: dropping the `WriteHandle` runs a final refresh exactly when the
operation log is non-empty; afterwards the value readers observe through
the public cell equals every operation ever written, applied in order to
the initial value. -/
theorem claim4_drop_writer (v : α) (t : List (Event β)) :
    ((exec ap (evcNew v) t).ops = [] →
        dropWriter ap (exec ap (evcNew v) t) = exec ap (evcNew v) t) ∧
    ((exec ap (evcNew v) t).ops ≠ [] →
        dropWriter ap (exec ap (evcNew v) t) = refresh ap (exec ap (evcNew v) t)) ∧
    readValue (dropWriter ap (exec ap (evcNew v) t))
      = List.foldl ap v (allWrites t) := by
  obtain ⟨h1, h2, h3, h4⟩ := exec_evcNew_inv ap v t
  have hflush := flushed_append_pending t ([] : List β)
  refine ⟨fun h => by simp [dropWriter, h], fun h => by simp [dropWriter, h], ?_⟩
  by_cases h : (exec ap (evcNew v) t).ops = []
  · have hpend : pendingFrom ([] : List β) t = [] := by rw [← h3, h]
    have hflush' : flushedFrom ([] : List β) t = allWrites t := by
      rw [hpend, List.append_nil, List.nil_append] at hflush
      exact hflush
    rw [dropWriter, if_pos (by simp [h])]
    rw [readValue, h1, hflush']
  · rw [dropWriter, if_neg (by simpa [List.isEmpty_iff] using h), readValue,
      refresh_readValue ap _ h4, h2, h3, ← List.foldl_append, hflush,
      List.nil_append]

theorem claim4_witness :
    ((exec (fun (l : List Nat) (x : Nat) => l ++ [x]) (evcNew [])
        [Event.write 1337]).ops = [] →
      dropWriter (fun (l : List Nat) (x : Nat) => l ++ [x])
          (exec (fun (l : List Nat) (x : Nat) => l ++ [x]) (evcNew [])
            [Event.write 1337])
        = exec (fun (l : List Nat) (x : Nat) => l ++ [x]) (evcNew [])
            [Event.write 1337]) ∧
    ((exec (fun (l : List Nat) (x : Nat) => l ++ [x]) (evcNew [])
        [Event.write 1337]).ops ≠ [] →
      dropWriter (fun (l : List Nat) (x : Nat) => l ++ [x])
          (exec (fun (l : List Nat) (x : Nat) => l ++ [x]) (evcNew [])
            [Event.write 1337])
        = refresh (fun (l : List Nat) (x : Nat) => l ++ [x])
            (exec (fun (l : List Nat) (x : Nat) => l ++ [x]) (evcNew [])
              [Event.write 1337])) ∧
    readValue (dropWriter (fun (l : List Nat) (x : Nat) => l ++ [x])
        (exec (fun (l : List Nat) (x : Nat) => l ++ [x]) (evcNew [])
          [Event.write 1337]))
      = List.foldl (fun (l : List Nat) (x : Nat) => l ++ [x]) []
          (allWrites [Event.write 1337]) :=
  claim4_drop_writer _ _ _

/-- C6: `WriteHandle::write(op)` only appends `op` to the writer-private
log (every other component of the state is unchanged), and the value any
read observes stays unchanged across the write and across any further
refresh-free suffix of the trace. -/
theorem claim6_write_only_appends (st : WState α β) (op : β) (t : List (Event β))
    (h : refreshCount t = 0) :
    writeOp st op = { st with ops := st.ops ++ [op] } ∧
    readValue (exec ap (writeOp st op) t) = readValue st := by
  refine ⟨rfl, ?_⟩
  obtain ⟨hb, hr, _⟩ := exec_noRefresh ap t (writeOp st op) h
  rw [readValue, hb, hr]
  rfl

theorem claim6_witness :
    refreshCount [Event.write (7 : Nat)] = 0 ∧
    (writeOp (evcNew [] : WState (List Nat) Nat) 5
        = { (evcNew [] : WState (List Nat) Nat) with
            ops := (evcNew [] : WState (List Nat) Nat).ops ++ [5] } ∧
      readValue (exec (fun (l : List Nat) (x : Nat) => l ++ [x])
          (writeOp (evcNew [] : WState (List Nat) Nat) 5) [Event.write (7 : Nat)])
        = readValue (evcNew [] : WState (List Nat) Nat)) :=
  ⟨rfl, claim6_write_only_appends (fun (l : List Nat) (x : Nat) => l ++ [x])
      (evcNew [] : WState (List Nat) Nat) 5 [Event.write (7 : Nat)] rfl⟩

/-- C7: a `refresh` with an empty operation log leaves the values stored in
both buffers unchanged, still exchanges the public and private pointer
cells, and still snapshots every live reader's epoch counter into
`last_epochs`. -/
theorem claim7_empty_log_refresh (st : WState α β) (h : st.ops = []) :
    (∀ i : Fin 2, (refresh ap st).buf i = st.buf i) ∧
    (refresh ap st).writers_ptr = st.readers_ptr ∧
    (refresh ap st).readers_ptr = st.writers_ptr ∧
    (refresh ap st).epochs = (wait st).epochs ∧
    (refresh ap st).last_epochs.length = (wait st).epochs.length ∧
    (∀ (i : Nat) (e : Nat), (wait st).epochs[i]? = some (some e) →
      (refresh ap st).last_epochs[i]? = some e) := by
  refine ⟨?_, rfl, rfl, rfl, ?_, ?_⟩
  · intro i
    rw [refresh_buf]
    simp only [wait_buf, wait_writers_ptr, wait_readers_ptr, wait_ops, h,
      List.foldl_nil, Function.update_eq_self]
  · show (snapshotEpochs (wait st).epochs (wait st).last_epochs).length = _
    rw [snapshotEpochs, List.length_zipWith, wait_last_epochs_length,
      Nat.min_self]
  · intro i e he
    exact snapshotEpochs_get (wait st).epochs (wait st).last_epochs i e
      (wait_last_epochs_length st).symm he

theorem claim7_witness :
    sampleState.ops = [] ∧
    ((∀ i : Fin 2,
        (refresh (fun a b => a + b) sampleState).buf i = sampleState.buf i) ∧
      (refresh (fun a b => a + b) sampleState).writers_ptr
          = sampleState.readers_ptr ∧
      (refresh (fun a b => a + b) sampleState).readers_ptr
          = sampleState.writers_ptr ∧
      (refresh (fun a b => a + b) sampleState).epochs = (wait sampleState).epochs ∧
      (refresh (fun a b => a + b) sampleState).last_epochs.length
          = (wait sampleState).epochs.length ∧
      (∀ (i : Nat) (e : Nat), (wait sampleState).epochs[i]? = some (some e) →
        (refresh (fun a b => a + b) sampleState).last_epochs[i]? = some e)) :=
  ⟨rfl, claim7_empty_log_refresh (fun a b => a + b) sampleState rfl⟩

/-- C8: at all times after construction, along any trace of writes and
refreshes, the public pointer cell and the private pointer cell hold
distinct buffer addresses. -/
theorem claim8_public_ne_private (v : α) (t : List (Event β)) :
    (exec ap (evcNew v) t).readers_ptr ≠ (exec ap (evcNew v) t).writers_ptr :=
  exec_ptrs_ne ap t (evcNew v) (evcNew_ptr_ne v)

/-- C10: `WriteHandle::into_inner` returns the private buffer's value as of
the last completed refresh, i.e. all operations refreshed so far applied in
order to the initial value; operations still pending in the log are
discarded and do not appear in the result. -/
theorem claim10_writer_into_inner (v : α) (t : List (Event β)) (n : Nat)
    (h : refreshCount t = n) :
    writerIntoInner (exec ap (evcNew v) t)
      = List.foldl ap v (writesBeforeNthRefresh n t) := by
  have h2 := (exec_evcNew_inv ap v t).2.1
  rw [writerIntoInner, h2, ← h, writesBeforeNthRefresh_eq_flushed]

theorem claim10_witness :
    refreshCount [Event.write 1, Event.refresh, Event.write 2] = 1 ∧
    writerIntoInner (exec (fun (l : List Nat) (x : Nat) => l ++ [x]) (evcNew [])
        [Event.write 1, Event.refresh, Event.write 2])
      = List.foldl (fun (l : List Nat) (x : Nat) => l ++ [x]) []
          (writesBeforeNthRefresh 1 [Event.write 1, Event.refresh, Event.write 2]) :=
  ⟨rfl, claim10_writer_into_inner _ _ _ 1 rfl⟩

/-- C3: in the wait phase, a registered reader whose snapshot
`last_epochs[i]` does not have the high bit set is classified as not
blocking iff its currently loaded counter has the high bit set (idle), or
differs from the snapshot, or equals 0 (never entered a guard); in
particular a reader whose counter is 0 never blocks the writer. -/
theorem claim3_wait_classification (last current : Nat)
    (h : last &&& USIZE_MSB = 0) :
    (readerBlocks last current = false ↔
      current &&& USIZE_MSB ≠ 0 ∨ current ≠ last ∨ current = 0) ∧
    readerBlocks last 0 = false := by
  constructor
  · rw [readerBlocks, if_neg (by simp [h])]
    by_cases h1 : current = last <;> by_cases h2 : current &&& USIZE_MSB = 0 <;>
      by_cases h3 : current = 0 <;> simp [h1, h2, h3, h]
  · rw [readerBlocks, if_neg (by simp [h])]
    simp

theorem claim3_witness :
    (0 : Nat) &&& USIZE_MSB = 0 ∧
    ((readerBlocks 0 7 = false ↔
        (7 : Nat) &&& USIZE_MSB ≠ 0 ∨ (7 : Nat) ≠ 0 ∨ (7 : Nat) = 0) ∧
      readerBlocks 0 0 = false) :=
  ⟨Nat.zero_and USIZE_MSB, claim3_wait_classification 0 7 (Nat.zero_and USIZE_MSB)⟩

/-- C5: `ReadHandle`'s `try_into_inner` (named `into_inner` in the source)
returns `some` with the contained value iff this handle holds the last
strong reference to the public pointer cell, i.e. no other reader handle,
factory, or writer still shares it (`others` counts those sharers);
otherwise it returns `none` and leaves the shared state unchanged. -/
theorem claim5_read_into_inner (v : α) (others : Nat) :
    ((rhIntoInner true { strong_count := others + 1, cell := some v }).1 = some v
        ↔ others = 0) ∧
    rhIntoInner true { strong_count := others + 2, cell := some v }
        = (none, { strong_count := others + 2, cell := some v }) ∧
    rhIntoInner true { strong_count := 1, cell := some v }
        = (some v, { strong_count := 1, cell := none }) := by
  refine ⟨?_, ?_, rfl⟩
  · by_cases h : others = 0 <;> simp [rhIntoInner, h]
  · simp [rhIntoInner]

lemma readDropPair_local (r : ReaderEpoch) :
    (readDropPair r).local_epoch = (r.local_epoch + 1) % usizeWrap := rfl

lemma doRead_snd (r : ReaderEpoch) :
    (doRead r).2 = (r.local_epoch + 1) % usizeWrap := rfl

/-- Closed form for the reader's local counter after `n` read/drop pairs. -/
lemma readerAfterPairs_local (n : Nat) :
    (readerAfterPairs n).local_epoch = n % usizeWrap := by
  induction n with
  | zero => simp [readerAfterPairs, initialReader]
  | succ n ih =>
    show (readDropPair (readerAfterPairs n)).local_epoch = (n + 1) % usizeWrap
    rw [readDropPair_local, ih, Nat.mod_add_mod]

/-- C9 (counterexample to the claim as stated): after `2^63 - 1` read/drop
pairs the next `read` publishes an epoch whose high bit is set — it is
`USIZE_MSB` itself — even though the reader is busy inside a guard, so the
published value does not have the high bit clear. -/
theorem claim9_counterexample :
    (doRead (readerAfterPairs (USIZE_MSB - 1))).2 &&& USIZE_MSB ≠ 0 := by
  have he : (doRead (readerAfterPairs (USIZE_MSB - 1))).2 = USIZE_MSB := by
    rw [doRead_snd, readerAfterPairs_local, USIZE_MSB_eq, usizeWrap_eq]
    norm_num
  rw [he, USIZE_MSB_eq, Nat.and_two_pow, Nat.testBit_two_pow_self]
  norm_num

/-- C9 (amended): for a `ReadHandle` used with at most one live guard at a
time that has performed fewer than `2^63 - 1` prior reads (so the 63-bit
counter has not overflowed into the flag bit), each `read` increments the
handle's epoch counter by exactly one and publishes that value with the
high bit clear (busy); dropping the returned guard stores the same value
with the high bit set (idle); and the counter is monotonically
non-decreasing across read/drop pairs. -/
theorem claim9_amended (n : Nat) (h : n + 1 < USIZE_MSB) :
    (doRead (readerAfterPairs n)).2 = (readerAfterPairs n).local_epoch + 1 ∧
    (doRead (readerAfterPairs n)).1.global_epoch = (doRead (readerAfterPairs n)).2 ∧
    (doRead (readerAfterPairs n)).2 &&& USIZE_MSB = 0 ∧
    (dropGuard (doRead (readerAfterPairs n)).1
        (doRead (readerAfterPairs n)).2).global_epoch
      = (doRead (readerAfterPairs n)).2 ||| USIZE_MSB ∧
    ((doRead (readerAfterPairs n)).2 ||| USIZE_MSB) &&& USIZE_MSB ≠ 0 ∧
    (readerAfterPairs (n + 1)).local_epoch = (readerAfterPairs n).local_epoch + 1 ∧
    (readerAfterPairs n).local_epoch ≤ (readerAfterPairs (n + 1)).local_epoch := by
  have hmsb : USIZE_MSB = 2 ^ 63 := USIZE_MSB_eq
  have hn : n < usizeWrap := by
    rw [usizeWrap_eq]
    rw [hmsb] at h
    calc n < 2 ^ 63 := by omega
    _ < 2 ^ 64 := by norm_num
  have hn1 : n + 1 < usizeWrap := by
    rw [usizeWrap_eq]
    rw [hmsb] at h
    calc n + 1 < 2 ^ 63 := h
    _ < 2 ^ 64 := by norm_num
  have hl : (readerAfterPairs n).local_epoch = n := by
    rw [readerAfterPairs_local, Nat.mod_eq_of_lt hn]
  have he : (doRead (readerAfterPairs n)).2 = n + 1 := by
    show ((readerAfterPairs n).local_epoch + 1) % usizeWrap = n + 1
    rw [hl, Nat.mod_eq_of_lt hn1]
  have hbit : (n + 1) &&& USIZE_MSB = 0 := by
    rw [hmsb, Nat.and_two_pow,
      Nat.testBit_eq_false_of_lt (by rw [hmsb] at h; exact h)]
    simp
  have hl1 : (readerAfterPairs (n + 1)).local_epoch = n + 1 := by
    rw [readerAfterPairs_local, Nat.mod_eq_of_lt hn1]
  refine ⟨by rw [he, hl], rfl, by rw [he]; exact hbit, rfl, ?_, by rw [hl1, hl], ?_⟩
  · rw [hmsb, Nat.and_two_pow, Nat.testBit_lor, Nat.testBit_two_pow_self,
      Bool.or_true]
    norm_num
  · rw [hl1, hl]
    omega

theorem claim9_amended_witness :
    (2 : Nat) + 1 < USIZE_MSB ∧
    ((doRead (readerAfterPairs 2)).2 = (readerAfterPairs 2).local_epoch + 1 ∧
      (doRead (readerAfterPairs 2)).1.global_epoch = (doRead (readerAfterPairs 2)).2 ∧
      (doRead (readerAfterPairs 2)).2 &&& USIZE_MSB = 0 ∧
      (dropGuard (doRead (readerAfterPairs 2)).1
          (doRead (readerAfterPairs 2)).2).global_epoch
        = (doRead (readerAfterPairs 2)).2 ||| USIZE_MSB ∧
      ((doRead (readerAfterPairs 2)).2 ||| USIZE_MSB) &&& USIZE_MSB ≠ 0 ∧
      (readerAfterPairs 3).local_epoch = (readerAfterPairs 2).local_epoch + 1 ∧
      (readerAfterPairs 2).local_epoch ≤ (readerAfterPairs 3).local_epoch) :=
  ⟨by rw [USIZE_MSB_eq]; norm_num,
    claim9_amended 2 (by rw [USIZE_MSB_eq]; norm_num)⟩

end Evc
